import Mathlib

/-!
Verification of the water blend optimizer core (src/app3.py) against its
specification.  Python floats are modelled as rationals (ℚ); the reference
dictionaries are modelled as association lists / Option-valued lookups, so a
missing key is `none` and a stored null is `some none`.
-/

namespace WaterBlend

/-- Per-analyte safety status, the two string constants of the source. -/
inductive Status where
  | safe
  | escalation
deriving DecidableEq, Repr

/-- A concentration table: water type → analyte → entry.  `none` models a
missing analyte key (Python dict `.get` default path), `some none` models a
stored `None`, `some (some c)` a numeric concentration.  The table is total
over water types, which models the claims' hypothesis that every water type
used is present in the reference table. -/
abbrev ConcTable := String → String → Option (Option ℚ)

/-- The constant `B9_DILUTION_FACTOR = 0.7` from the source. -/
def B9_DILUTION_FACTOR : ℚ := 7 / 10

/-- Effective concentration used by `calculate_blend_concentration`:
`WATER_TYPE_CONCENTRATIONS[water_type].get(analyte, 0.0)` followed by the
`if conc is None: conc = 0.0` coercion. -/
def effConc (table : ConcTable) (waterType analyte : String) : ℚ :=
  match table waterType analyte with
  | none => 0
  | some none => 0
  | some (some c) => c

/-- The accumulator loop of `calculate_blend_concentration`: running
`(total_mass, total_volume)` over the source list. -/
def blendAccum (table : ConcTable) (analyte : String)
    (sources : List (String × ℚ)) (init : ℚ × ℚ) : ℚ × ℚ :=
  sources.foldl
    (fun acc s => (acc.1 + effConc table s.1 analyte * s.2, acc.2 + s.2)) init

/-- The function `calculate_blend_concentration(water_sources, analyte)`:
weighted average `total_mass / total_volume`, returning `0.0` when the total
volume is `0`. -/
def calculate_blend_concentration (table : ConcTable)
    (water_sources : List (String × ℚ)) (analyte : String) : ℚ :=
  let acc := blendAccum table analyte water_sources (0, 0)
  if acc.2 = 0 then 0 else acc.1 / acc.2

/-- The function `apply_b9_dilution(concentration)`: multiply by 0.7. -/
def apply_b9_dilution (concentration : ℚ) : ℚ :=
  concentration * B9_DILUTION_FACTOR

/-- The function `get_status(final_concentration, escalation_level)`:
escalation when `final_concentration >= escalation_level`, else safe. -/
def get_status (final_concentration escalation_level : ℚ) : Status :=
  if final_concentration ≥ escalation_level then Status.escalation
  else Status.safe

/-- Total volume of a source list (`sum(v for _, v in water_sources)`). -/
def totalVolume (sources : List (String × ℚ)) : ℚ :=
  (sources.map Prod.snd).sum

/-- Weighted numerator of the blend formula: Σ concentration(type, analyte) ×
volume, with missing/None entries contributing 0 through `effConc`. -/
def weightedMass (table : ConcTable) (sources : List (String × ℚ))
    (analyte : String) : ℚ :=
  (sources.map (fun s => effConc table s.1 analyte * s.2)).sum

theorem blendAccum_spec (table : ConcTable) (analyte : String)
    (sources : List (String × ℚ)) (init : ℚ × ℚ) :
    blendAccum table analyte sources init =
      (init.1 + weightedMass table sources analyte,
       init.2 + totalVolume sources) := by
  induction sources generalizing init with
  | nil => simp [blendAccum, weightedMass, totalVolume]
  | cons s rest ih =>
      simp only [blendAccum, List.foldl_cons] at *
      rw [ih]
      simp [weightedMass, totalVolume]
      ring_nf
      constructor <;> ring

theorem calculate_blend_concentration_eq (table : ConcTable)
    (sources : List (String × ℚ)) (analyte : String) :
    calculate_blend_concentration table sources analyte =
      if totalVolume sources = 0 then 0
      else weightedMass table sources analyte / totalVolume sources := by
  simp [calculate_blend_concentration, blendAccum_spec]

/-- C1: for sources whose types are present in the table and with volumes
≥ 0: if total volume is positive the result is exactly
Σ(concentration × volume) / Σ(volume) (missing/None entries contributing 0 to
the numerator via `effConc` while their volume stays in the denominator), and
if total volume is 0 the result is exactly 0 with no division error. -/
theorem C1_blend_weighted_average (table : ConcTable)
    (sources : List (String × ℚ)) (analyte : String)
    (hvol : ∀ s ∈ sources, 0 ≤ s.2) :
    (0 < totalVolume sources →
      calculate_blend_concentration table sources analyte =
        weightedMass table sources analyte / totalVolume sources) ∧
    (totalVolume sources = 0 →
      calculate_blend_concentration table sources analyte = 0) ∧
    (∀ t : String, table t analyte = none ∨ table t analyte = some none →
      effConc table t analyte = 0) := by
  refine ⟨?_, ?_, ?_⟩
  · intro hpos
    rw [calculate_blend_concentration_eq]
    simp [ne_of_gt hpos]
  · intro hzero
    rw [calculate_blend_concentration_eq]
    simp [hzero]
  · intro t ht
    rcases ht with h | h <;> simp [effConc, h]

/-- Closed instantiation of C1 at a concrete input. -/
theorem C1_blend_weighted_average_witness :
    (0 < totalVolume [("A", (100 : ℚ)), ("B", 50)] →
      calculate_blend_concentration (fun _ _ => some (some 2))
          [("A", (100 : ℚ)), ("B", 50)] "Chloride" =
        weightedMass (fun _ _ => some (some 2))
          [("A", (100 : ℚ)), ("B", 50)] "Chloride" /
        totalVolume [("A", (100 : ℚ)), ("B", 50)]) ∧
    (totalVolume [("A", (100 : ℚ)), ("B", 50)] = 0 →
      calculate_blend_concentration (fun _ _ => some (some 2))
          [("A", (100 : ℚ)), ("B", 50)] "Chloride" = 0) ∧
    (∀ t : String,
      (fun (_ _ : String) => some (some (2 : ℚ))) t "Chloride" = none ∨
      (fun (_ _ : String) => some (some (2 : ℚ))) t "Chloride" = some none →
      effConc (fun _ _ => some (some 2)) t "Chloride" = 0) := by
  exact C1_blend_weighted_average (fun _ _ => some (some 2))
    [("A", (100 : ℚ)), ("B", 50)] "Chloride"
    (by intro s hs; fin_cases hs <;> norm_num)

/-- The table `WATER_TYPE_CONCENTRATIONS` from the source, an association list
water type → (analyte → concentration in mg/L). -/
def WATER_TYPE_CONCENTRATIONS : List (String × List (String × ℚ)) :=
  [("DISTILLED WATER",
    [("Chloride", 0), ("Bromide", 0), ("Iodide", 0), ("Sulphide", 0),
     ("Cyanide", 0), ("Nitrate", 0), ("Nitrite", 0), ("Ammonium", 0)]),
   ("RAIN WATER",
    [("Chloride", 3.47), ("Bromide", 0), ("Iodide", 0), ("Sulphide", 0),
     ("Cyanide", 0), ("Nitrate", 0.27), ("Nitrite", 0), ("Ammonium", 0.41)]),
   ("TAP WATER (CARDIFF)",
    [("Chloride", 0), ("Bromide", 0), ("Iodide", 0), ("Sulphide", 0),
     ("Cyanide", 0), ("Nitrate", 0), ("Nitrite", 0), ("Ammonium", 0)]),
   ("FINAL SEWAGE EFFLUENT",
    [("Chloride", 94.3), ("Bromide", 0.119), ("Iodide", 0.003),
     ("Sulphide", 0.017), ("Cyanide", 0.005), ("Nitrate", 14.0),
     ("Nitrite", 0.2), ("Ammonium", 0.82)]),
   ("Yeo Valley (Final Effluent)",
    [("Chloride", 36.1), ("Bromide", 0), ("Iodide", 0), ("Sulphide", 0),
     ("Cyanide", 0), ("Nitrate", 0), ("Nitrite", 0), ("Ammonium", 1.05)]),
   ("CRUDE SEWAGE",
    [("Chloride", 180.0), ("Bromide", 0), ("Iodide", 0), ("Sulphide", 0.016),
     ("Cyanide", 0.007), ("Nitrate", 0.6), ("Nitrite", 0.038),
     ("Ammonium", 28.0)]),
   ("ANY SEWAGE",
    [("Chloride", 99.0), ("Bromide", 0), ("Iodide", 0), ("Sulphide", 0.022),
     ("Cyanide", 0.005), ("Nitrate", 9.72), ("Nitrite", 0.12),
     ("Ammonium", 3.39)]),
   ("ANY TRADE EFFLUENT",
    [("Chloride", 77.0), ("Bromide", 0.317), ("Iodide", 0.013),
     ("Sulphide", 0.024), ("Cyanide", 0.012), ("Nitrate", 3.415),
     ("Nitrite", 0.044), ("Ammonium", 0.5)]),
   ("TRADE EFFLUENT - FRESHWATER RETURNED ABSTRACTED",
    [("Chloride", 39.6), ("Bromide", 0.145), ("Iodide", 0), ("Sulphide", 0.01),
     ("Cyanide", 0), ("Nitrate", 6.225), ("Nitrite", 0.024),
     ("Ammonium", 0.087)]),
   ("STORM SEWER OVERFLOW DISCHARGE",
    [("Chloride", 58.4), ("Bromide", 0), ("Iodide", 0), ("Sulphide", 0.073),
     ("Cyanide", 0.382), ("Nitrate", 0.9), ("Nitrite", 0.1),
     ("Ammonium", 6.43)]),
   ("SURFACE DRAINAGE",
    [("Chloride", 69.6), ("Bromide", 0.076), ("Iodide", 0.02),
     ("Sulphide", 0.015), ("Cyanide", 0.005), ("Nitrate", 1.68),
     ("Nitrite", 0.05), ("Ammonium", 0.5)]),
   ("ANY LEACHATE",
    [("Chloride", 778.0), ("Bromide", 7.6), ("Iodide", 0.02),
     ("Sulphide", 0.07), ("Cyanide", 0.05), ("Nitrate", 0.9),
     ("Nitrite", 0.1), ("Ammonium", 120.5)]),
   ("GROUNDWATER - PURGED/PUMPED/REFILLED",
    [("Chloride", 43.8), ("Bromide", 0.082), ("Iodide", 0.003),
     ("Sulphide", 0.01), ("Cyanide", 0.005), ("Nitrate", 6.0),
     ("Nitrite", 0.004), ("Ammonium", 0.089)]),
   ("MINEWATER",
    [("Chloride", 19.0), ("Bromide", 0.101), ("Iodide", 0.003),
     ("Sulphide", 0.01), ("Cyanide", 0.005), ("Nitrate", 0.312),
     ("Nitrite", 0.004), ("Ammonium", 0.03)]),
   ("CANAL WATER",
    [("Chloride", 58.0), ("Bromide", 0.067), ("Iodide", 0),
     ("Sulphide", 0.011), ("Cyanide", 0.008), ("Nitrate", 2.04),
     ("Nitrite", 0.019), ("Ammonium", 0.056)])]

/-- The concrete concentration table as a `ConcTable`.  A water type present
in the dictionary yields its per-analyte map (`some (some c)` for a stored
value, `none` for a missing analyte key); an absent water type yields `none`
everywhere (the claims only evaluate present types, where the Python dict
lookup succeeds). -/
def concTable : ConcTable := fun waterType analyte =>
  match WATER_TYPE_CONCENTRATIONS.lookup waterType with
  | none => none
  | some m => (m.lookup analyte).map some

/-- The table `SLUDGE_PRODUCTION_KG_PER_M3` from the source (kg per m³). -/
def SLUDGE_PRODUCTION_KG_PER_M3 : List (String × ℚ) :=
  [("Yeo Valley (Final Effluent)", 0.3),
   ("RAIN WATER", 0.0015),
   ("TAP WATER (CARDIFF)", 0.023),
   ("FINAL SEWAGE EFFLUENT", 0.26),
   ("DISTILLED WATER", 0.0),
   ("CRUDE SEWAGE", 0.6),
   ("ANY SEWAGE", 0.35),
   ("ANY TRADE EFFLUENT", 0.4),
   ("TRADE EFFLUENT - FRESHWATER RETURNED ABSTRACTED", 0.22),
   ("STORM SEWER OVERFLOW DISCHARGE", 0.18),
   ("SURFACE DRAINAGE", 0.05),
   ("ANY LEACHATE", 0.9),
   ("GROUNDWATER - PURGED/PUMPED/REFILLED", 0.01),
   ("MINEWATER", 0.08),
   ("CANAL WATER", 0.03)]

/-- Sludge-rate lookup, `SLUDGE_PRODUCTION_KG_PER_M3.get(water_type)`:
`none` models an unknown rate. -/
def sludgeRate (waterType : String) : Option ℚ :=
  SLUDGE_PRODUCTION_KG_PER_M3.lookup waterType

/-- The table `ALKALINE_ESCALATION_LEVELS`, in dict insertion order. -/
def ALKALINE_ESCALATION_LEVELS : List (String × ℚ) :=
  [("Chloride", 3500.0), ("Bromide", 8.0), ("Iodide", 1.3), ("Sulphide", 1.0),
   ("Cyanide", 0.02), ("Nitrate", 50.0), ("Nitrite", 50.0),
   ("Ammonium", 10.0)]

/-- C3: `get_status` returns escalation exactly when the final concentration
is ≥ the threshold; in particular equality yields escalation, not safe. -/
theorem C3_status_boundary :
    (∀ final threshold : ℚ,
      (get_status final threshold = Status.escalation ↔ threshold ≤ final)) ∧
    (∀ threshold : ℚ, get_status threshold threshold = Status.escalation) := by
  constructor
  · intro final threshold
    unfold get_status
    split
    · simp_all [ge_iff_le]
    · simp_all [ge_iff_le]
  · intro threshold
    simp [get_status]

/-- Per-analyte result record built inside `analyze_combination`. -/
structure AnalyteResult where
  blend_concentration : ℚ
  final_concentration : ℚ
  escalation_level : ℚ
  status : Status
deriving DecidableEq, Repr

/-- The mutable state of `analyze_combination`'s loop over the escalation
levels.  `worst_ratio = none` models the Python initial `float('inf')`. -/
structure AnalyzeState where
  overall_status : Status
  analyte_results : List (String × AnalyteResult)
  limiting_analytes : List (String × ℚ × ℚ)
  safe_count : ℕ
  escalation_count : ℕ
  worst_ratio : Option ℚ
  worst_analyte : Option String
  max_dilution_needed : ℚ
  dilution_limiting_analyte : Option String
deriving DecidableEq, Repr

/-- Comparison `ratio < worst_ratio` with `worst_ratio` possibly `float('inf')`. -/
def ratioLt (ratio : ℚ) (worst : Option ℚ) : Prop :=
  match worst with
  | none => True
  | some w => ratio < w

instance (ratio : ℚ) (worst : Option ℚ) : Decidable (ratioLt ratio worst) := by
  unfold ratioLt
  cases worst <;> infer_instance

/-- Final concentration of an analyte for a source list: blend concentration
followed by the B9 dilution, as computed inside the loop. -/
def finalConc (table : ConcTable) (sources : List (String × ℚ))
    (analyte : String) : ℚ :=
  apply_b9_dilution (calculate_blend_concentration table sources analyte)

/-- One iteration of `analyze_combination`'s `for analyte, limit in
escalation_levels.items()` loop, mirroring the source line by line. -/
def analyzeStep (table : ConcTable) (sources : List (String × ℚ))
    (st : AnalyzeState) (p : String × ℚ) : AnalyzeState :=
  let blend := calculate_blend_concentration table sources p.1
  let final := apply_b9_dilution blend
  let status := get_status final p.2
  let st1 : AnalyzeState :=
    { st with analyte_results :=
        st.analyte_results ++ [(p.1, ⟨blend, final, p.2, status⟩)] }
  let st2 : AnalyzeState :=
    if status = Status.safe then
      { st1 with safe_count := st1.safe_count + 1 }
    else
      { st1 with escalation_count := st1.escalation_count + 1,
                 limiting_analytes :=
                   st1.limiting_analytes ++ [(p.1, final, p.2)],
                 overall_status := Status.escalation }
  if 0 < final then
    let ratio := p.2 / final
    let st3 :=
      if ratioLt ratio st2.worst_ratio then
        { st2 with worst_ratio := some ratio, worst_analyte := some p.1 }
      else st2
    if p.2 < final then
      let dilution := final / p.2
      if st3.max_dilution_needed < dilution then
        { st3 with max_dilution_needed := dilution,
                   dilution_limiting_analyte := some p.1 }
      else st3
    else st3
  else st2

/-- Aggregate result of `analyze_combination`. -/
structure CombinationResult where
  overall_status : Status
  analyte_results : List (String × AnalyteResult)
  total_volume : ℚ
  limiting_analytes : List (String × ℚ × ℚ)
  safe_count : ℕ
  escalation_count : ℕ
  safety_score : ℚ
  worst_analyte : Option String
  worst_ratio : ℚ
  required_dilution : ℚ
  dilution_limiting_analyte : Option String
deriving DecidableEq, Repr

/-- The constant `ratio_cap = 100.0` from the source. -/
def ratio_cap : ℚ := 100

/-- Initial loop state of `analyze_combination`. -/
def initState : AnalyzeState :=
  { overall_status := Status.safe
    analyte_results := []
    limiting_analytes := []
    safe_count := 0
    escalation_count := 0
    worst_ratio := none
    worst_analyte := none
    max_dilution_needed := 1
    dilution_limiting_analyte := none }

/-- The function `analyze_combination(water_sources, escalation_levels)`:
run the per-analyte loop over the escalation levels (a list of
analyte–threshold pairs in dict insertion order) and assemble the result. -/
def analyze_combination (table : ConcTable) (water_sources : List (String × ℚ))
    (escalation_levels : List (String × ℚ)) : CombinationResult :=
  let st := escalation_levels.foldl (analyzeStep table water_sources) initState
  { overall_status := st.overall_status
    analyte_results := st.analyte_results
    total_volume := totalVolume water_sources
    limiting_analytes := st.limiting_analytes
    safe_count := st.safe_count
    escalation_count := st.escalation_count
    safety_score :=
      match st.worst_ratio with
      | none => ratio_cap
      | some w => min w ratio_cap
    worst_analyte := st.worst_analyte
    worst_ratio :=
      match st.worst_ratio with
      | none => ratio_cap
      | some w => w
    required_dilution := st.max_dilution_needed
    dilution_limiting_analyte := st.dilution_limiting_analyte }

/-- The analyte–ratio pairs considered by the safety-score search: analytes
with strictly positive final concentration, paired with threshold / final
concentration, in profile iteration order. -/
def posRatios (table : ConcTable) (sources : List (String × ℚ))
    (profile : List (String × ℚ)) : List (String × ℚ) :=
  profile.filterMap fun p =>
    if 0 < finalConc table sources p.1 then
      some (p.1, p.2 / finalConc table sources p.1)
    else none

/-- The analyte–dilution pairs considered by the required-dilution search as
the code guards them (`final_conc > 0` and `final_conc > limit`). -/
def overDils (table : ConcTable) (sources : List (String × ℚ))
    (profile : List (String × ℚ)) : List (String × ℚ) :=
  profile.filterMap fun p =>
    if 0 < finalConc table sources p.1 ∧ p.2 < finalConc table sources p.1
    then some (p.1, finalConc table sources p.1 / p.2)
    else none

/-- The analyte–dilution pairs in the spec's wording: analytes whose final
concentration is over the threshold, paired with final / threshold. -/
def overThresholdDils (table : ConcTable) (sources : List (String × ℚ))
    (profile : List (String × ℚ)) : List (String × ℚ) :=
  profile.filterMap fun p =>
    if p.2 < finalConc table sources p.1 then
      some (p.1, finalConc table sources p.1 / p.2)
    else none

theorem overThresholdDils_eq_overDils (table : ConcTable)
    (sources : List (String × ℚ)) (profile : List (String × ℚ))
    (h : ∀ p ∈ profile, 0 < p.2) :
    overThresholdDils table sources profile = overDils table sources profile := by
  induction profile with
  | nil => simp [overThresholdDils, overDils]
  | cons p rest ih =>
      have hp : 0 < p.2 := h p (by simp)
      have hrest : ∀ q ∈ rest, 0 < q.2 := fun q hq => h q (by simp [hq])
      simp only [overThresholdDils, overDils, List.filterMap_cons] at *
      by_cases hover : p.2 < finalConc table sources p.1
      · have hpos : 0 < finalConc table sources p.1 := lt_trans hp hover
        simp [hover, hpos, ih hrest]
      · simp [hover, ih hrest]

/-- The running `(worst_ratio, worst_analyte)` update: strict improvement
against a possibly-infinite current best. -/
def minScan : Option ℚ × Option String → List (String × ℚ) →
    Option ℚ × Option String
  | acc, [] => acc
  | acc, (a, r) :: rest =>
      if ratioLt r acc.1 then minScan (some r, some a) rest
      else minScan acc rest

/-- The running `(max_dilution_needed, dilution_limiting_analyte)` update:
strict improvement over the current maximum. -/
def maxScan : ℚ × Option String → List (String × ℚ) → ℚ × Option String
  | acc, [] => acc
  | acc, (a, d) :: rest =>
      if acc.1 < d then maxScan (d, some a) rest
      else maxScan acc rest

theorem step_worst_ratio (table : ConcTable) (sources : List (String × ℚ))
    (st : AnalyzeState) (p : String × ℚ) :
    (analyzeStep table sources st p).worst_ratio =
      if 0 < finalConc table sources p.1 ∧
          ratioLt (p.2 / finalConc table sources p.1) st.worst_ratio then
        some (p.2 / finalConc table sources p.1)
      else st.worst_ratio := by
  simp only [analyzeStep, finalConc]
  split_ifs <;> simp_all

theorem step_worst_analyte (table : ConcTable) (sources : List (String × ℚ))
    (st : AnalyzeState) (p : String × ℚ) :
    (analyzeStep table sources st p).worst_analyte =
      if 0 < finalConc table sources p.1 ∧
          ratioLt (p.2 / finalConc table sources p.1) st.worst_ratio then
        some p.1
      else st.worst_analyte := by
  simp only [analyzeStep, finalConc]
  split_ifs <;> simp_all

theorem step_max_dilution (table : ConcTable) (sources : List (String × ℚ))
    (st : AnalyzeState) (p : String × ℚ) :
    (analyzeStep table sources st p).max_dilution_needed =
      if 0 < finalConc table sources p.1 ∧ p.2 < finalConc table sources p.1 ∧
          st.max_dilution_needed < finalConc table sources p.1 / p.2 then
        finalConc table sources p.1 / p.2
      else st.max_dilution_needed := by
  simp only [analyzeStep, finalConc]
  split_ifs <;> simp_all

theorem step_dilution_analyte (table : ConcTable) (sources : List (String × ℚ))
    (st : AnalyzeState) (p : String × ℚ) :
    (analyzeStep table sources st p).dilution_limiting_analyte =
      if 0 < finalConc table sources p.1 ∧ p.2 < finalConc table sources p.1 ∧
          st.max_dilution_needed < finalConc table sources p.1 / p.2 then
        some p.1
      else st.dilution_limiting_analyte := by
  simp only [analyzeStep, finalConc]
  split_ifs <;> simp_all

theorem foldl_worst (table : ConcTable) (sources : List (String × ℚ))
    (profile : List (String × ℚ)) (st : AnalyzeState) :
    ((profile.foldl (analyzeStep table sources) st).worst_ratio,
     (profile.foldl (analyzeStep table sources) st).worst_analyte) =
      minScan (st.worst_ratio, st.worst_analyte)
        (posRatios table sources profile) := by
  induction profile generalizing st with
  | nil => simp [minScan, posRatios]
  | cons p rest ih =>
      simp only [List.foldl_cons]
      rw [ih]
      simp only [posRatios, List.filterMap_cons]
      by_cases hpos : 0 < finalConc table sources p.1
      · by_cases hlt : ratioLt (p.2 / finalConc table sources p.1) st.worst_ratio
        · simp [hpos, hlt, minScan, step_worst_ratio, step_worst_analyte,
            posRatios]
        · simp [hpos, hlt, minScan, step_worst_ratio, step_worst_analyte,
            posRatios]
      · simp [hpos, step_worst_ratio, step_worst_analyte, posRatios]

theorem foldl_dilution (table : ConcTable) (sources : List (String × ℚ))
    (profile : List (String × ℚ)) (st : AnalyzeState) :
    ((profile.foldl (analyzeStep table sources) st).max_dilution_needed,
     (profile.foldl (analyzeStep table sources) st).dilution_limiting_analyte) =
      maxScan (st.max_dilution_needed, st.dilution_limiting_analyte)
        (overDils table sources profile) := by
  induction profile generalizing st with
  | nil => simp [maxScan, overDils]
  | cons p rest ih =>
      simp only [List.foldl_cons]
      rw [ih]
      simp only [overDils, List.filterMap_cons]
      by_cases hpos : 0 < finalConc table sources p.1 ∧
          p.2 < finalConc table sources p.1
      · by_cases hlt :
            st.max_dilution_needed < finalConc table sources p.1 / p.2
        · simp [hpos, hpos.1, hpos.2, hlt, maxScan, step_max_dilution,
            step_dilution_analyte, overDils]
        · simp [hpos, hpos.1, hpos.2, hlt, maxScan, step_max_dilution,
            step_dilution_analyte, overDils]
      · have h1 : (analyzeStep table sources st p).max_dilution_needed =
            st.max_dilution_needed := by
          rw [step_max_dilution]
          simp only [ite_eq_right_iff]
          intro h
          exact absurd ⟨h.1, h.2.1⟩ hpos
        have h2 : (analyzeStep table sources st p).dilution_limiting_analyte =
            st.dilution_limiting_analyte := by
          rw [step_dilution_analyte]
          simp only [ite_eq_right_iff]
          intro h
          exact absurd ⟨h.1, h.2.1⟩ hpos
        simp [hpos, h1, h2, overDils]

theorem minScan_no_improvement (l : List (String × ℚ)) (w : ℚ)
    (wa : Option String) (h : ∀ q ∈ l, w ≤ q.2) :
    minScan (some w, wa) l = (some w, wa) := by
  induction l with
  | nil => simp [minScan]
  | cons q rest ih =>
      have hq : w ≤ q.2 := h q (by simp)
      have hlt : ¬ ratioLt q.2 (some w) := by
        simp [ratioLt]
        exact hq
      simp only [minScan]
      rw [if_neg (by simpa using hlt)]
      exact ih fun x hx => h x (by simp [hx])

theorem minScan_improvement (l : List (String × ℚ)) (w : ℚ)
    (wa : Option String) (h : ∃ q ∈ l, q.2 < w) :
    ∃ pre a m post, l = pre ++ (a, m) :: post ∧ m < w ∧
      (∀ q ∈ pre, m < q.2) ∧ (∀ q ∈ post, m ≤ q.2) ∧
      minScan (some w, wa) l = (some m, some a) := by
  induction l generalizing w wa with
  | nil => simp at h
  | cons q rest ih =>
      by_cases hq : q.2 < w
      · have hstep : minScan (some w, wa) (q :: rest) =
            minScan (some q.2, some q.1) rest := by
          simp [minScan, ratioLt, hq]
        by_cases hrest : ∃ x ∈ rest, x.2 < q.2
        · obtain ⟨pre, a, m, post, hdecomp, hm, hpre, hpost, heq⟩ :=
            ih q.2 (some q.1) hrest
          refine ⟨q :: pre, a, m, post, by simp [hdecomp], lt_trans hm hq,
            ?_, hpost, by rw [hstep, heq]⟩
          intro x hx
          rcases List.mem_cons.mp hx with rfl | hx
          · exact hm
          · exact hpre x hx
        · push_neg at hrest
          refine ⟨[], q.1, q.2, rest, by simp, hq, by simp, hrest, ?_⟩
          rw [hstep, minScan_no_improvement rest q.2 (some q.1) hrest]
      · have hstep : minScan (some w, wa) (q :: rest) =
            minScan (some w, wa) rest := by
          simp only [minScan]
          rw [if_neg (by simp [ratioLt]; exact le_of_not_lt hq)]
        have hrest : ∃ x ∈ rest, x.2 < w := by
          obtain ⟨x, hx, hxw⟩ := h
          rcases List.mem_cons.mp hx with rfl | hx
          · exact absurd hxw hq
          · exact ⟨x, hx, hxw⟩
        obtain ⟨pre, a, m, post, hdecomp, hm, hpre, hpost, heq⟩ :=
          ih w wa hrest
        refine ⟨q :: pre, a, m, post, by simp [hdecomp], hm, ?_, hpost,
          by rw [hstep, heq]⟩
        intro x hx
        rcases List.mem_cons.mp hx with rfl | hx
        · exact lt_of_lt_of_le hm (le_of_not_lt hq)
        · exact hpre x hx

theorem maxScan_no_improvement (l : List (String × ℚ)) (w : ℚ)
    (wa : Option String) (h : ∀ q ∈ l, q.2 ≤ w) :
    maxScan (w, wa) l = (w, wa) := by
  induction l with
  | nil => simp [maxScan]
  | cons q rest ih =>
      have hq : q.2 ≤ w := h q (by simp)
      simp only [maxScan]
      rw [if_neg (not_lt_of_le hq)]
      exact ih fun x hx => h x (by simp [hx])

theorem maxScan_improvement (l : List (String × ℚ)) (w : ℚ)
    (wa : Option String) (h : ∃ q ∈ l, w < q.2) :
    ∃ pre a m post, l = pre ++ (a, m) :: post ∧ w < m ∧
      (∀ q ∈ pre, q.2 < m) ∧ (∀ q ∈ post, q.2 ≤ m) ∧
      maxScan (w, wa) l = (m, some a) := by
  induction l generalizing w wa with
  | nil => simp at h
  | cons q rest ih =>
      by_cases hq : w < q.2
      · have hstep : maxScan (w, wa) (q :: rest) =
            maxScan (q.2, some q.1) rest := by
          simp [maxScan, hq]
        by_cases hrest : ∃ x ∈ rest, q.2 < x.2
        · obtain ⟨pre, a, m, post, hdecomp, hm, hpre, hpost, heq⟩ :=
            ih q.2 (some q.1) hrest
          refine ⟨q :: pre, a, m, post, by simp [hdecomp], lt_trans hq hm,
            ?_, hpost, by rw [hstep, heq]⟩
          intro x hx
          rcases List.mem_cons.mp hx with rfl | hx
          · exact hm
          · exact hpre x hx
        · push_neg at hrest
          refine ⟨[], q.1, q.2, rest, by simp, hq, by simp, hrest, ?_⟩
          rw [hstep, maxScan_no_improvement rest q.2 (some q.1) hrest]
      · have hstep : maxScan (w, wa) (q :: rest) = maxScan (w, wa) rest := by
          simp only [maxScan]
          rw [if_neg hq]
        have hrest : ∃ x ∈ rest, w < x.2 := by
          obtain ⟨x, hx, hxw⟩ := h
          rcases List.mem_cons.mp hx with rfl | hx
          · exact absurd hxw hq
          · exact ⟨x, hx, hxw⟩
        obtain ⟨pre, a, m, post, hdecomp, hm, hpre, hpost, heq⟩ :=
          ih w wa hrest
        refine ⟨q :: pre, a, m, post, by simp [hdecomp], hm, ?_, hpost,
          by rw [hstep, heq]⟩
        intro x hx
        rcases List.mem_cons.mp hx with rfl | hx
        · exact lt_of_le_of_lt (le_of_not_lt hq) hm
        · exact hpre x hx

/-- C4: the safety score of `analyze_combination` is the minimum of
threshold / final concentration over the analytes with strictly positive
final concentration, capped at 100; it is exactly 100 when no analyte has
positive final concentration; and `worst_analyte` is the analyte attaining
the minimum, the first one in iteration order winning exact ties (every
earlier candidate has a strictly larger ratio). -/
theorem C4_safety_score_min_ratio (table : ConcTable)
    (sources : List (String × ℚ)) (profile : List (String × ℚ)) :
    (posRatios table sources profile = [] →
      (analyze_combination table sources profile).safety_score = 100 ∧
      (analyze_combination table sources profile).worst_analyte = none) ∧
    (posRatios table sources profile ≠ [] →
      ∃ pre a r post,
        posRatios table sources profile = pre ++ (a, r) :: post ∧
        (∀ q ∈ pre, r < q.2) ∧ (∀ q ∈ post, r ≤ q.2) ∧
        (analyze_combination table sources profile).safety_score = min r 100 ∧
        (analyze_combination table sources profile).worst_analyte = some a) := by
  have hpair := foldl_worst table sources profile initState
  have hinit : (initState.worst_ratio, initState.worst_analyte) =
      ((none : Option ℚ), (none : Option String)) := rfl
  rw [hinit] at hpair
  constructor
  · intro hempty
    rw [hempty] at hpair
    simp only [minScan, Prod.mk.injEq] at hpair
    constructor
    · simp only [analyze_combination]
      rw [hpair.1]
      rfl
    · simp only [analyze_combination]
      rw [hpair.2]
  · intro hne
    obtain ⟨x, rest, hx⟩ := List.exists_cons_of_ne_nil hne
    rw [hx] at hpair
    have hfirst : minScan (none, none) (x :: rest) =
        minScan (some x.2, some x.1) rest := by
      simp [minScan, ratioLt]
    rw [hfirst] at hpair
    by_cases hrest : ∀ q ∈ rest, x.2 ≤ q.2
    · rw [minScan_no_improvement rest x.2 (some x.1) hrest] at hpair
      simp only [Prod.mk.injEq] at hpair
      refine ⟨[], x.1, x.2, rest, by simp [hx], by simp, hrest, ?_, ?_⟩
      · simp only [analyze_combination]
        rw [hpair.1]
        rfl
      · simp only [analyze_combination]
        rw [hpair.2]
    · push_neg at hrest
      obtain ⟨pre, a, m, post, hdecomp, hm, hpre, hpost, heq⟩ :=
        minScan_improvement rest x.2 (some x.1) hrest
      rw [heq] at hpair
      simp only [Prod.mk.injEq] at hpair
      refine ⟨x :: pre, a, m, post, by simp [hx, hdecomp], ?_, hpost, ?_, ?_⟩
      · intro q hq
        rcases List.mem_cons.mp hq with rfl | hq
        · exact hm
        · exact hpre q hq
      · simp only [analyze_combination]
        rw [hpair.1]
        rfl
      · simp only [analyze_combination]
        rw [hpair.2]

/-- A constant concentration table, used to instantiate the parametric
theorems at concrete inputs. -/
def constTable (c : ℚ) : ConcTable := fun _ _ => some (some c)

theorem finalConc_nil (table : ConcTable) (analyte : String) :
    finalConc table [] analyte = 0 := by
  simp [finalConc, calculate_blend_concentration, blendAccum,
    apply_b9_dilution]

theorem posRatios_nil (table : ConcTable) (profile : List (String × ℚ)) :
    posRatios table [] profile = [] := by
  rw [posRatios, List.filterMap_eq_nil]
  intro p _
  simp [finalConc_nil]

theorem finalConc_constTable_one :
    finalConc (constTable 1) [("W", 1)] "X" = 7 / 10 := by
  simp [finalConc, constTable, calculate_blend_concentration, blendAccum,
    effConc, apply_b9_dilution, B9_DILUTION_FACTOR]

/-- Closed instantiation of C4: the empty-positive-set branch at an empty
source list, and the minimum branch at a one-source, one-analyte input. -/
theorem C4_safety_score_min_ratio_witness :
    ((analyze_combination concTable [] ALKALINE_ESCALATION_LEVELS).safety_score
        = 100 ∧
     (analyze_combination concTable [] ALKALINE_ESCALATION_LEVELS).worst_analyte
        = none) ∧
    (∃ pre a r post,
        posRatios (constTable 1) [("W", 1)] [("X", 2)]
          = pre ++ (a, r) :: post ∧
        (∀ q ∈ pre, r < q.2) ∧ (∀ q ∈ post, r ≤ q.2) ∧
        (analyze_combination (constTable 1) [("W", 1)]
            [("X", 2)]).safety_score = min r 100 ∧
        (analyze_combination (constTable 1) [("W", 1)]
            [("X", 2)]).worst_analyte = some a) := by
  constructor
  · exact (C4_safety_score_min_ratio concTable [] ALKALINE_ESCALATION_LEVELS).1
      (posRatios_nil concTable ALKALINE_ESCALATION_LEVELS)
  · refine (C4_safety_score_min_ratio (constTable 1) [("W", 1)] [("X", 2)]).2
      ?_
    have hR : posRatios (constTable 1) [("W", 1)] [("X", 2)] =
        [("X", 2 / (7 / 10))] := by
      simp [posRatios, finalConc_constTable_one]
    rw [hR]
    simp

/-- Every dilution candidate is strictly above 1 when thresholds are
positive. -/
theorem overDils_gt_one (table : ConcTable) (sources : List (String × ℚ))
    (profile : List (String × ℚ)) (hpos : ∀ p ∈ profile, 0 < p.2) :
    ∀ x ∈ overDils table sources profile, 1 < x.2 := by
  intro x hx
  simp only [overDils, List.mem_filterMap] at hx
  obtain ⟨p, hp, hcond⟩ := hx
  by_cases hc : 0 < finalConc table sources p.1 ∧
      p.2 < finalConc table sources p.1
  · rw [if_pos hc] at hcond
    obtain rfl := Option.some_injective _ hcond
    exact (one_lt_div (hpos p hp)).mpr hc.2
  · rw [if_neg hc] at hcond
    exact absurd hcond (by simp)

/-- C5: the required dilution of `analyze_combination` is the maximum of
final concentration / threshold over the analytes over their (positive)
threshold, with a floor of exactly 1 when no analyte exceeds its threshold;
`dilution_limiting_analyte` is the analyte producing the maximum (the first
in iteration order on exact ties), and is `none` when the floor applies. -/
theorem C5_required_dilution_max (table : ConcTable)
    (sources : List (String × ℚ)) (profile : List (String × ℚ))
    (hpos : ∀ p ∈ profile, 0 < p.2) :
    (overThresholdDils table sources profile = [] →
      (analyze_combination table sources profile).required_dilution = 1 ∧
      (analyze_combination table sources
        profile).dilution_limiting_analyte = none) ∧
    (overThresholdDils table sources profile ≠ [] →
      ∃ pre a d post,
        overThresholdDils table sources profile = pre ++ (a, d) :: post ∧
        1 < d ∧ (∀ q ∈ pre, q.2 < d) ∧ (∀ q ∈ post, q.2 ≤ d) ∧
        (analyze_combination table sources profile).required_dilution = d ∧
        (analyze_combination table sources
          profile).dilution_limiting_analyte = some a) := by
  have hover := overThresholdDils_eq_overDils table sources profile hpos
  have hpair := foldl_dilution table sources profile initState
  have hinit : (initState.max_dilution_needed,
      initState.dilution_limiting_analyte) =
      ((1 : ℚ), (none : Option String)) := rfl
  rw [hinit] at hpair
  rw [← hover] at hpair
  constructor
  · intro hempty
    rw [hempty] at hpair
    simp only [maxScan, Prod.mk.injEq] at hpair
    constructor
    · simp only [analyze_combination]
      rw [hpair.1]
    · simp only [analyze_combination]
      rw [hpair.2]
  · intro hne
    obtain ⟨x, rest, hx⟩ := List.exists_cons_of_ne_nil hne
    have hx1 : 1 < x.2 := by
      refine overDils_gt_one table sources profile hpos x ?_
      rw [← hover, hx]
      simp
    rw [hx] at hpair
    have hfirst : maxScan (1, none) (x :: rest) =
        maxScan (x.2, some x.1) rest := by
      simp [maxScan, hx1]
    rw [hfirst] at hpair
    by_cases hrest : ∀ q ∈ rest, q.2 ≤ x.2
    · rw [maxScan_no_improvement rest x.2 (some x.1) hrest] at hpair
      simp only [Prod.mk.injEq] at hpair
      refine ⟨[], x.1, x.2, rest, by simp [hx], hx1, by simp, hrest, ?_, ?_⟩
      · simp only [analyze_combination]
        rw [hpair.1]
      · simp only [analyze_combination]
        rw [hpair.2]
    · push_neg at hrest
      obtain ⟨pre, a, m, post, hdecomp, hm, hpre, hpost, heq⟩ :=
        maxScan_improvement rest x.2 (some x.1) hrest
      rw [heq] at hpair
      simp only [Prod.mk.injEq] at hpair
      refine ⟨x :: pre, a, m, post, by simp [hx, hdecomp],
        lt_trans hx1 hm, ?_, hpost, ?_, ?_⟩
      · intro q hq
        rcases List.mem_cons.mp hq with rfl | hq
        · exact hm
        · exact hpre q hq
      · simp only [analyze_combination]
        rw [hpair.1]
      · simp only [analyze_combination]
        rw [hpair.2]

theorem alkaline_thresholds_pos :
    ∀ p ∈ ALKALINE_ESCALATION_LEVELS, 0 < p.2 := by
  intro p hp
  fin_cases hp <;> norm_num

theorem overThresholdDils_nil_alkaline (table : ConcTable) :
    overThresholdDils table [] ALKALINE_ESCALATION_LEVELS = [] := by
  rw [overThresholdDils, List.filterMap_eq_nil]
  intro p hp
  rw [if_neg]
  rw [finalConc_nil]
  exact not_lt_of_lt (alkaline_thresholds_pos p hp)

/-- Closed instantiation of C5: the floor branch at an empty source list, and
the maximum branch at a one-source, one-analyte input whose final
concentration exceeds the threshold. -/
theorem C5_required_dilution_max_witness :
    ((analyze_combination concTable []
        ALKALINE_ESCALATION_LEVELS).required_dilution = 1 ∧
     (analyze_combination concTable []
        ALKALINE_ESCALATION_LEVELS).dilution_limiting_analyte = none) ∧
    (∃ pre a d post,
        overThresholdDils (constTable 1) [("W", 1)] [("X", 1 / 2)]
          = pre ++ (a, d) :: post ∧
        1 < d ∧ (∀ q ∈ pre, q.2 < d) ∧ (∀ q ∈ post, q.2 ≤ d) ∧
        (analyze_combination (constTable 1) [("W", 1)]
            [("X", 1 / 2)]).required_dilution = d ∧
        (analyze_combination (constTable 1) [("W", 1)]
            [("X", 1 / 2)]).dilution_limiting_analyte = some a) := by
  constructor
  · exact (C5_required_dilution_max concTable [] ALKALINE_ESCALATION_LEVELS
      alkaline_thresholds_pos).1 (overThresholdDils_nil_alkaline concTable)
  · refine (C5_required_dilution_max (constTable 1) [("W", 1)] [("X", 1 / 2)]
      ?_).2 ?_
    · intro p hp
      fin_cases hp <;> norm_num
    · apply List.ne_nil_of_mem
        (a := ("X", finalConc (constTable 1) [("W", 1)] "X" / (1 / 2)))
      simp only [overThresholdDils, List.mem_filterMap]
      refine ⟨("X", 1 / 2), by simp, ?_⟩
      have hc : (("X", (1 : ℚ) / 2).2 <
          finalConc (constTable 1) [("W", 1)] ("X", (1 : ℚ) / 2).1) := by
        simp only [finalConc_constTable_one]
        norm_num
      rw [if_pos hc]

theorem calculate_blend_concentration_nil (table : ConcTable)
    (analyte : String) :
    calculate_blend_concentration table [] analyte = 0 := by
  simp [calculate_blend_concentration, blendAccum]

theorem analyzeStep_nil_sources (table : ConcTable) (st : AnalyzeState)
    (p : String × ℚ) (hp : 0 < p.2) :
    analyzeStep table [] st p =
      { st with
        analyte_results :=
          st.analyte_results ++ [(p.1, ⟨0, 0, p.2, Status.safe⟩)]
        safe_count := st.safe_count + 1 } := by
  have hblend : calculate_blend_concentration table [] p.1 = 0 :=
    calculate_blend_concentration_nil table p.1
  have hstatus : get_status 0 p.2 = Status.safe := by
    rw [get_status, if_neg]
    simp only [ge_iff_le, not_le]
    exact hp
  simp [analyzeStep, hblend, hstatus, apply_b9_dilution]

theorem foldl_nil_sources (table : ConcTable) (profile : List (String × ℚ))
    (st : AnalyzeState) (h : ∀ p ∈ profile, 0 < p.2) :
    profile.foldl (analyzeStep table []) st =
      { st with
        analyte_results := st.analyte_results ++
          profile.map (fun p => (p.1, ⟨0, 0, p.2, Status.safe⟩))
        safe_count := st.safe_count + profile.length } := by
  induction profile generalizing st with
  | nil => simp
  | cons p rest ih =>
      have hp : 0 < p.2 := h p (by simp)
      have hrest : ∀ q ∈ rest, 0 < q.2 := fun q hq => h q (by simp [hq])
      simp only [List.foldl_cons, analyzeStep_nil_sources table st p hp,
        ih _ hrest, List.map_cons, List.length_cons]
      congr 1
      · simp
      · omega

/-- C10: analyzing the empty source list against any profile with strictly
positive thresholds returns, without error, overall status safe, total
volume 0, every analyte safe with blend and final concentration 0, safe
count = number of analytes, escalation count 0, safety score 100, no worst
analyte, required dilution exactly 1 and no dilution-limiting analyte. -/
theorem C10_empty_sources_analysis (table : ConcTable)
    (profile : List (String × ℚ)) (h : ∀ p ∈ profile, 0 < p.2) :
    analyze_combination table [] profile =
      { overall_status := Status.safe
        analyte_results :=
          profile.map (fun p => (p.1, ⟨0, 0, p.2, Status.safe⟩))
        total_volume := 0
        limiting_analytes := []
        safe_count := profile.length
        escalation_count := 0
        safety_score := 100
        worst_analyte := none
        worst_ratio := 100
        required_dilution := 1
        dilution_limiting_analyte := none } := by
  have hst := foldl_nil_sources table profile initState h
  simp only [analyze_combination, hst]
  simp [initState, totalVolume, ratio_cap]

/-- Closed instantiation of C10 at the alkaline escalation profile. -/
theorem C10_empty_sources_analysis_witness :
    analyze_combination concTable [] ALKALINE_ESCALATION_LEVELS =
      { overall_status := Status.safe
        analyte_results := ALKALINE_ESCALATION_LEVELS.map
          (fun p => (p.1, ⟨0, 0, p.2, Status.safe⟩))
        total_volume := 0
        limiting_analytes := []
        safe_count := ALKALINE_ESCALATION_LEVELS.length
        escalation_count := 0
        safety_score := 100
        worst_analyte := none
        worst_ratio := 100
        required_dilution := 1
        dilution_limiting_analyte := none } :=
  C10_empty_sources_analysis concTable ALKALINE_ESCALATION_LEVELS
    alkaline_thresholds_pos

/-- One ranked source as produced by `rank_water_sources`: water type,
available volume, individual status and safety score (the latter two are not
read by `build_blend_from_ranking`). -/
structure RankedSource where
  type : String
  available_volume : ℚ
  overall_status : Status
  safety_score : ℚ
deriving DecidableEq, Repr

/-- The function `build_blend_from_ranking(ranked_sources, required_volume)` from the
source: walk the ranked list, stop once `remaining <= 0`, take
`min(available_volume, remaining)` from each source and record it when the
taken volume is positive.  Returns `(selected, remaining)`. -/
def build_blend_from_ranking : List RankedSource → ℚ →
    List (String × ℚ) × ℚ
  | [], remaining => ([], remaining)
  | s :: rest, remaining =>
      if remaining ≤ 0 then ([], remaining)
      else
        let use_volume := min s.available_volume remaining
        if 0 < use_volume then
          let res := build_blend_from_ranking rest (remaining - use_volume)
          ((s.type, use_volume) :: res.1, res.2)
        else
          build_blend_from_ranking rest remaining

/-- Total available volume of a ranked source list. -/
def totalAvailable (ranked : List RankedSource) : ℚ :=
  (ranked.map (fun s => s.available_volume)).sum

theorem totalAvailable_nonneg (ranked : List RankedSource)
    (h : ∀ s ∈ ranked, 0 ≤ s.available_volume) :
    0 ≤ totalAvailable ranked := by
  refine List.sum_nonneg ?_
  intro x hx
  obtain ⟨s, hs, rfl⟩ := List.mem_map.mp hx
  exact h s hs

/-- C6: with nonnegative available volumes, when the total available volume
is strictly below the required volume, `build_blend_from_ranking` returns
shortfall = requiredVolume − totalAvailable > 0, and the selected list
consumes every source fully (each source with positive volume appears with
its entire available volume; zero-volume sources contribute nothing). -/
theorem C6_greedy_fill_exhaustion (ranked : List RankedSource) (required : ℚ)
    (hnn : ∀ s ∈ ranked, 0 ≤ s.available_volume)
    (hshort : totalAvailable ranked < required) :
    (build_blend_from_ranking ranked required).2 =
      required - totalAvailable ranked ∧
    0 < (build_blend_from_ranking ranked required).2 ∧
    (build_blend_from_ranking ranked required).1 =
      (ranked.filter (fun s => decide (0 < s.available_volume))).map
        (fun s => (s.type, s.available_volume)) := by
  induction ranked generalizing required with
  | nil =>
      simp only [build_blend_from_ranking, totalAvailable, List.map_nil,
        List.sum_nil] at *
      refine ⟨by ring, by linarith, by simp⟩
  | cons s rest ih =>
      have hs : 0 ≤ s.available_volume := hnn s (by simp)
      have hrest : ∀ x ∈ rest, 0 ≤ x.available_volume :=
        fun x hx => hnn x (by simp [hx])
      have hT : totalAvailable (s :: rest) =
          s.available_volume + totalAvailable rest := by
        simp [totalAvailable]
      have hTrest : 0 ≤ totalAvailable rest := totalAvailable_nonneg rest hrest
      have hreq : 0 < required := by
        rw [hT] at hshort
        linarith
      have hnotstop : ¬ required ≤ 0 := not_le.mpr hreq
      have hmin : min s.available_volume required = s.available_volume := by
        refine min_eq_left ?_
        rw [hT] at hshort
        linarith
      by_cases hpos : 0 < s.available_volume
      · have hshort2 : totalAvailable rest < required - s.available_volume := by
          rw [hT] at hshort
          linarith
        obtain ⟨ih1, ih2, ih3⟩ := ih (required - s.available_volume) hrest
          hshort2
        refine ⟨?_, ?_, ?_⟩
        · simp only [build_blend_from_ranking, if_neg hnotstop, hmin,
            if_pos hpos]
          rw [ih1, hT]
          ring
        · simp only [build_blend_from_ranking, if_neg hnotstop, hmin,
            if_pos hpos]
          exact ih2
        · simp only [build_blend_from_ranking, if_neg hnotstop, hmin,
            if_pos hpos]
          rw [ih3]
          simp [List.filter_cons, hpos]
      · have hzero : s.available_volume = 0 := le_antisymm (not_lt.mp hpos) hs
        have hshort2 : totalAvailable rest < required := by
          rw [hT, hzero] at hshort
          linarith
        obtain ⟨ih1, ih2, ih3⟩ := ih required hrest hshort2
        refine ⟨?_, ?_, ?_⟩
        · simp only [build_blend_from_ranking, if_neg hnotstop, hmin,
            if_neg hpos]
          rw [ih1, hT, hzero]
          ring
        · simp only [build_blend_from_ranking, if_neg hnotstop, hmin,
            if_neg hpos]
          exact ih2
        · simp only [build_blend_from_ranking, if_neg hnotstop, hmin,
            if_neg hpos]
          rw [ih3]
          simp [List.filter_cons, hpos]

/-- Closed instantiation of C6: 30 L + 20 L available against 100 L
required leaves a 50 L shortfall with both sources fully consumed. -/
theorem C6_greedy_fill_exhaustion_witness :
    (build_blend_from_ranking
        [⟨"RAIN WATER", 30, Status.safe, 100⟩,
         ⟨"CRUDE SEWAGE", 20, Status.escalation, 1⟩] 100).2 =
      100 - totalAvailable
        [⟨"RAIN WATER", 30, Status.safe, 100⟩,
         ⟨"CRUDE SEWAGE", 20, Status.escalation, 1⟩] ∧
    0 < (build_blend_from_ranking
        [⟨"RAIN WATER", 30, Status.safe, 100⟩,
         ⟨"CRUDE SEWAGE", 20, Status.escalation, 1⟩] 100).2 ∧
    (build_blend_from_ranking
        [⟨"RAIN WATER", 30, Status.safe, 100⟩,
         ⟨"CRUDE SEWAGE", 20, Status.escalation, 1⟩] 100).1 =
      (List.filter (fun (s : RankedSource) => decide (0 < s.available_volume))
          [⟨"RAIN WATER", 30, Status.safe, 100⟩,
           ⟨"CRUDE SEWAGE", 20, Status.escalation, 1⟩]).map
        (fun s => (s.type, s.available_volume)) := by
  refine C6_greedy_fill_exhaustion _ 100 ?_ ?_
  · intro s hs
    fin_cases hs <;> norm_num
  · simp [totalAvailable]
    norm_num

/-- Model of `itertools.combinations(l, r)`: the length-`r` combinations of `l`, each
in input order, those containing the first element listed first (lexicographic
by position, as itertools yields them). -/
def combos {α : Type} : ℕ → List α → List (List α)
  | 0, _ => [[]]
  | _ + 1, [] => []
  | r + 1, x :: xs => (combos r xs).map (fun c => x :: c) ++ combos (r + 1) xs

theorem combos_perm_sublistsLen {α : Type} (r : ℕ) (l : List α) :
    (combos r l).Perm (List.sublistsLen r l) := by
  induction l generalizing r with
  | nil =>
      cases r with
      | zero => simp [combos]
      | succ r => simp [combos]
  | cons x xs ih =>
      cases r with
      | zero => simp [combos]
      | succ r =>
          rw [List.sublistsLen_succ_cons]
          exact List.perm_append_comm.trans
            (List.Perm.append (ih (r + 1)) (List.Perm.map _ (ih r)))

theorem mem_combos {α : Type} {c : List α} {r : ℕ} {l : List α} :
    c ∈ combos r l ↔ c.Sublist l ∧ c.length = r :=
  ((combos_perm_sublistsLen r l).mem_iff).trans List.mem_sublistsLen

theorem length_combos {α : Type} (r : ℕ) (l : List α) :
    (combos r l).length = l.length.choose r :=
  ((combos_perm_sublistsLen r l).length_eq).trans
    (List.length_sublistsLen r l)

theorem nodup_combos {α : Type} (r : ℕ) {l : List α} (h : l.Nodup) :
    (combos r l).Nodup :=
  ((combos_perm_sublistsLen r l).nodup_iff).mpr (List.nodup_sublistsLen r h)

/-- The index combinations produced by `get_all_combinations`'s loop
`for r in range(1, min(n + 1, max_size + 1)): combinations(range(n), r)`. -/
def idxCombos (n max_size : ℕ) : List (List ℕ) :=
  (List.range' 1 (min n max_size)).flatMap (fun r => combos r (List.range n))

/-- The function `get_all_combinations(water_entries, max_size)`: the
index combinations applied to the entry list (`water_entries[i]` is modelled
by `getD` with a dummy default; every index produced is in range). -/
def get_all_combinations (water_entries : List (String × ℚ))
    (max_size : ℕ) : List (List (String × ℚ)) :=
  (idxCombos water_entries.length max_size).map
    (fun idxs => idxs.map (fun i => water_entries.getD i ("", 0)))

theorem mem_idxCombos {is : List ℕ} {n m : ℕ} :
    is ∈ idxCombos n m ↔
      is.Sublist (List.range n) ∧ is ≠ [] ∧ is.length ≤ min n m := by
  constructor
  · intro h
    obtain ⟨r, hr, hmem⟩ := List.mem_flatMap.mp h
    obtain ⟨hsub, hlen⟩ := mem_combos.mp hmem
    obtain ⟨hr1, hr2⟩ := List.mem_range'_1.mp hr
    refine ⟨hsub, ?_, by omega⟩
    intro hnil
    rw [hnil] at hlen
    simp at hlen
    omega
  · rintro ⟨hsub, hne, hlen⟩
    refine List.mem_flatMap.mpr ⟨is.length, ?_, mem_combos.mpr ⟨hsub, rfl⟩⟩
    refine List.mem_range'_1.mpr ⟨?_, by omega⟩
    exact List.length_pos.mpr hne

theorem nodup_idxCombos (n m : ℕ) : (idxCombos n m).Nodup := by
  rw [idxCombos, List.nodup_flatMap]
  constructor
  · intro r _
    exact nodup_combos r (List.nodup_range n)
  · refine (List.nodup_range' 1 (min n m)).imp ?_
    intro r s hrs
    intro c hc hc2
    obtain ⟨_, hlen1⟩ := mem_combos.mp hc
    obtain ⟨_, hlen2⟩ := mem_combos.mp hc2
    exact hrs (by rw [← hlen1, hlen2])

theorem length_get_all_combinations (entries : List (String × ℚ)) (m : ℕ) :
    (get_all_combinations entries m).length =
      ((List.range' 1 (min entries.length m)).map
        (fun r => entries.length.choose r)).sum := by
  rw [get_all_combinations, List.length_map, idxCombos, List.length_flatMap]
  congr 1
  refine List.map_congr_left ?_
  intro r _
  simp [length_combos]

/-- C7: `get_all_combinations` on `n` entries with bound `m` produces, via
its index combinations, exactly the nonempty subsets of positions `0..n-1`
of size between 1 and `min n m` (each a sublist of `range n`, hence
increasing: input order is preserved), with no duplicate subset; the number
of combinations returned is Σ_{r=1}^{min n m} C(n, r); and on 5 entries with
bound 3 exactly 25 combinations are returned. -/
theorem C7_combination_enumeration (entries : List (String × ℚ)) (m : ℕ) :
    (∀ is : List ℕ, is ∈ idxCombos entries.length m ↔
        (is.Sublist (List.range entries.length) ∧ is ≠ [] ∧
         is.length ≤ min entries.length m)) ∧
    (idxCombos entries.length m).Nodup ∧
    get_all_combinations entries m =
      (idxCombos entries.length m).map
        (fun idxs => idxs.map (fun i => entries.getD i ("", 0))) ∧
    (get_all_combinations entries m).length =
      ((List.range' 1 (min entries.length m)).map
        (fun r => entries.length.choose r)).sum ∧
    (get_all_combinations
        [("A", (1 : ℚ)), ("B", 1), ("C", 1), ("D", 1), ("E", 1)] 3).length
      = 25 := by
  refine ⟨fun _ => mem_idxCombos, nodup_idxCombos entries.length m, rfl,
    length_get_all_combinations entries m, ?_⟩
  rw [length_get_all_combinations]
  rfl

/-- One row of `calculate_sludge_kg`'s breakdown list; `none` models the
Python `None` for an unknown rate / unknown mass. -/
structure SludgeItem where
  water_type : String
  volume_l : ℚ
  rate_kg_m3 : Option ℚ
  sludge_kg : Option ℚ
deriving DecidableEq, Repr

/-- The function `calculate_sludge_kg(water_sources)`: per entry, rate
lookup; unknown rate → breakdown row with `None` mass, excluded from the
total; known rate → mass `(volume / 1000.0) * rate` added to the total and
recorded.  (The loop accumulates left to right; the total is the same sum.) -/
def calculate_sludge_kg : List (String × ℚ) → ℚ × List SludgeItem
  | [] => (0, [])
  | (t, v) :: rest =>
      let res := calculate_sludge_kg rest
      match sludgeRate t with
      | none => (res.1, ⟨t, v, none, none⟩ :: res.2)
      | some rate =>
          (v / 1000 * rate + res.1,
           ⟨t, v, some rate, some (v / 1000 * rate)⟩ :: res.2)

/-- C8: the sludge total is the sum of `(volume / 1000) * rate` over exactly
the entries with a known rate (unknown rates are excluded, never treated as
0), the breakdown keeps every entry, known or unknown, in input order; and
the spec's example — one entry of known rate 0.26 at 1000 L plus one
unknown-rate entry at 500 L — totals exactly 0.26 kg with the unknown entry
flagged `none` in the breakdown. -/
theorem C8_sludge_unknown_rates (sources : List (String × ℚ)) :
    (calculate_sludge_kg sources).1 =
      (sources.filterMap
        (fun s => (sludgeRate s.1).map (fun r => s.2 / 1000 * r))).sum ∧
    (calculate_sludge_kg sources).2 =
      sources.map (fun s =>
        ⟨s.1, s.2, sludgeRate s.1,
         (sludgeRate s.1).map (fun r => s.2 / 1000 * r)⟩) ∧
    (calculate_sludge_kg
        [("FINAL SEWAGE EFFLUENT", 1000), ("MYSTERY BREW", 500)]).1 = 0.26 ∧
    (calculate_sludge_kg
        [("FINAL SEWAGE EFFLUENT", 1000), ("MYSTERY BREW", 500)]).2 =
      [⟨"FINAL SEWAGE EFFLUENT", 1000, some 0.26, some 0.26⟩,
       ⟨"MYSTERY BREW", 500, none, none⟩] := by
  refine ⟨?_, ?_, ?_, ?_⟩
  · induction sources with
    | nil => simp [calculate_sludge_kg]
    | cons s rest ih =>
        obtain ⟨t, v⟩ := s
        simp only [calculate_sludge_kg]
        cases h : sludgeRate t with
        | none => simp [h, ih]
        | some rate => simp [h, ih]
  · induction sources with
    | nil => simp [calculate_sludge_kg]
    | cons s rest ih =>
        obtain ⟨t, v⟩ := s
        simp only [calculate_sludge_kg]
        cases h : sludgeRate t with
        | none => simp [h, ih]
        | some rate => simp [h, ih]
  · have h1 : sludgeRate "FINAL SEWAGE EFFLUENT" = some 0.26 := by
      simp [sludgeRate, SLUDGE_PRODUCTION_KG_PER_M3, List.lookup]
    have h2 : sludgeRate "MYSTERY BREW" = none := by
      simp [sludgeRate, SLUDGE_PRODUCTION_KG_PER_M3, List.lookup]
    simp only [calculate_sludge_kg, h1, h2]
    norm_num
  · have h1 : sludgeRate "FINAL SEWAGE EFFLUENT" = some 0.26 := by
      simp [sludgeRate, SLUDGE_PRODUCTION_KG_PER_M3, List.lookup]
    have h2 : sludgeRate "MYSTERY BREW" = none := by
      simp [sludgeRate, SLUDGE_PRODUCTION_KG_PER_M3, List.lookup]
    simp only [calculate_sludge_kg, h1, h2]
    norm_num

theorem weightedMass_nonneg (table : ConcTable) (sources : List (String × ℚ))
    (analyte : String) (hv : ∀ s ∈ sources, 0 ≤ s.2)
    (hc : ∀ s ∈ sources, 0 ≤ effConc table s.1 analyte) :
    0 ≤ weightedMass table sources analyte := by
  refine List.sum_nonneg ?_
  intro x hx
  obtain ⟨s, hs, rfl⟩ := List.mem_map.mp hx
  exact mul_nonneg (hc s hs) (hv s hs)

theorem weightedMass_eq_zero_of_totalVolume_eq_zero (table : ConcTable)
    (sources : List (String × ℚ)) (analyte : String)
    (hv : ∀ s ∈ sources, 0 ≤ s.2) (h0 : totalVolume sources = 0) :
    weightedMass table sources analyte = 0 := by
  induction sources with
  | nil => simp [weightedMass]
  | cons s rest ih =>
      have hs : 0 ≤ s.2 := hv s (by simp)
      have hrest : ∀ x ∈ rest, 0 ≤ x.2 := fun x hx => hv x (by simp [hx])
      have hTrest : 0 ≤ totalVolume rest :=
        List.sum_nonneg (by
          intro x hx
          obtain ⟨q, hq, rfl⟩ := List.mem_map.mp hx
          exact hrest q hq)
      have hT : totalVolume (s :: rest) = s.2 + totalVolume rest := by
        simp [totalVolume]
      rw [hT] at h0
      have hs0 : s.2 = 0 := by linarith
      have hr0 : totalVolume rest = 0 := by linarith
      have : weightedMass table (s :: rest) analyte =
          effConc table s.1 analyte * s.2 + weightedMass table rest analyte := by
        simp [weightedMass]
      rw [this, hs0, ih hrest hr0]
      ring

/-- C9: appending a diluent whose effective concentration for the analyte is
0 (e.g. DISTILLED WATER) with volume ≥ 0 to a source list with nonnegative
volumes and nonnegative concentrations never increases the blend
concentration for that analyte. -/
theorem C9_diluent_monotonicity (table : ConcTable)
    (sources : List (String × ℚ)) (analyte diluent : String) (v : ℚ)
    (hv : ∀ s ∈ sources, 0 ≤ s.2)
    (hc : ∀ s ∈ sources, 0 ≤ effConc table s.1 analyte)
    (hd : effConc table diluent analyte = 0) (hv0 : 0 ≤ v) :
    calculate_blend_concentration table (sources ++ [(diluent, v)]) analyte ≤
      calculate_blend_concentration table sources analyte := by
  have hM : weightedMass table (sources ++ [(diluent, v)]) analyte =
      weightedMass table sources analyte := by
    simp [weightedMass, hd]
  have hV : totalVolume (sources ++ [(diluent, v)]) =
      totalVolume sources + v := by
    simp [totalVolume]
  have hMnn : 0 ≤ weightedMass table sources analyte :=
    weightedMass_nonneg table sources analyte hv hc
  have hVnn : 0 ≤ totalVolume sources :=
    List.sum_nonneg (by
      intro x hx
      obtain ⟨q, hq, rfl⟩ := List.mem_map.mp hx
      exact hv q hq)
  rw [calculate_blend_concentration_eq, calculate_blend_concentration_eq,
    hM, hV]
  by_cases hVz : totalVolume sources = 0
  · have hMz : weightedMass table sources analyte = 0 :=
      weightedMass_eq_zero_of_totalVolume_eq_zero table sources analyte hv hVz
    rw [hVz, hMz]
    simp
  · have hVpos : 0 < totalVolume sources := lt_of_le_of_ne hVnn (Ne.symm hVz)
    have hVvpos : 0 < totalVolume sources + v := by linarith
    rw [if_neg hVz, if_neg (ne_of_gt hVvpos)]
    rw [div_le_div_iff hVvpos hVpos]
    have := mul_le_mul_of_nonneg_left (by linarith :
      totalVolume sources ≤ totalVolume sources + v) hMnn
    linarith [this]

/-- Closed instantiation of C9: adding 100 L of DISTILLED WATER to 100 L of
RAIN WATER does not increase the chloride blend concentration. -/
theorem C9_diluent_monotonicity_witness :
    calculate_blend_concentration concTable
        ([("RAIN WATER", 100)] ++ [("DISTILLED WATER", 100)]) "Chloride" ≤
      calculate_blend_concentration concTable [("RAIN WATER", 100)]
        "Chloride" := by
  refine C9_diluent_monotonicity concTable [("RAIN WATER", 100)] "Chloride"
    "DISTILLED WATER" 100 ?_ ?_ ?_ (by norm_num)
  · intro s hs
    fin_cases hs <;> norm_num
  · intro s hs
    fin_cases hs
    simp [effConc, concTable, WATER_TYPE_CONCENTRATIONS, List.lookup]
    norm_num
  · simp [effConc, concTable, WATER_TYPE_CONCENTRATIONS, List.lookup]

/-- The sort key of `sort_results`: `(status_priority, -safety_score)` with
safe = 0 before escalation = 1. -/
def sort_key (r : CombinationResult) : ℕ × ℚ :=
  (if r.overall_status = Status.safe then 0 else 1, -r.safety_score)

/-- Python tuple comparison of the sort keys (lexicographic). -/
def sortLe (a b : CombinationResult) : Prop :=
  (sort_key a).1 < (sort_key b).1 ∨
    ((sort_key a).1 = (sort_key b).1 ∧ (sort_key a).2 ≤ (sort_key b).2)

instance (a b : CombinationResult) : Decidable (sortLe a b) := by
  unfold sortLe
  infer_instance

/-- The function `sort_results(results)`: Python's stable sort by
`sort_key`, modelled by stable merge sort under the key's total preorder.
No filtering of any kind is performed. -/
def sort_results (results : List CombinationResult) : List CombinationResult :=
  results.mergeSort (fun a b => decide (sortLe a b))

theorem sortLe_trans (a b c : CombinationResult) (h1 : sortLe a b)
    (h2 : sortLe b c) : sortLe a c := by
  rcases h1 with h1 | ⟨h1e, h1q⟩ <;> rcases h2 with h2 | ⟨h2e, h2q⟩
  · exact Or.inl (lt_trans h1 h2)
  · exact Or.inl (lt_of_lt_of_eq h1 h2e)
  · exact Or.inl (lt_of_eq_of_lt h1e h2)
  · exact Or.inr ⟨h1e.trans h2e, le_trans h1q h2q⟩

theorem sortLe_total (a b : CombinationResult) : sortLe a b ∨ sortLe b a := by
  rcases lt_trichotomy (sort_key a).1 (sort_key b).1 with h | h | h
  · exact Or.inl (Or.inl h)
  · rcases le_total (sort_key a).2 (sort_key b).2 with hq | hq
    · exact Or.inl (Or.inr ⟨h, hq⟩)
    · exact Or.inr (Or.inr ⟨h.symm, hq⟩)
  · exact Or.inr (Or.inl h)

/-- C2 amended: `sort_results` performs no required-volume filtering — it
returns a permutation of its input (every combination, however small its
total volume, still appears), merely ordered by status then descending
safety score. -/
theorem C2_sort_results_discards_nothing (results : List CombinationResult) :
    (sort_results results).Perm results ∧
    (∀ r : CombinationResult, r ∈ sort_results results ↔ r ∈ results) ∧
    List.Pairwise (fun a b => sortLe a b) (sort_results results) := by
  have hperm := List.mergeSort_perm results (fun a b => decide (sortLe a b))
  refine ⟨hperm, fun r => hperm.mem_iff, ?_⟩
  have hsorted := @List.sorted_mergeSort CombinationResult
    (fun a b => decide (sortLe a b))
    (fun a b c h1 h2 => decide_eq_true
      (sortLe_trans a b c (of_decide_eq_true h1) (of_decide_eq_true h2)))
    (fun a b => by
      rcases sortLe_total a b with h | h
      · simp [decide_eq_true h]
      · simp [decide_eq_true h])
    results
  refine hsorted.imp ?_
  intro a b h
  exact of_decide_eq_true h

/-- A combination result with total volume 5, far below a required volume of
100. -/
def lowVolumeResult : CombinationResult :=
  { overall_status := Status.safe
    analyte_results := []
    total_volume := 5
    limiting_analytes := []
    safe_count := 8
    escalation_count := 0
    safety_score := 100
    worst_analyte := none
    worst_ratio := 100
    required_dilution := 1
    dilution_limiting_analyte := none }

/-- C2 counterexample: with a caller-supplied required volume of 100,
`sort_results` still returns the combination of total volume 5 — nothing is
discarded, refuting the claim that under-volume combinations never appear in
the returned list. -/
theorem C2_counterexample_no_volume_filter :
    lowVolumeResult.total_volume < 100 ∧
    lowVolumeResult ∈ sort_results [lowVolumeResult] := by
  constructor
  · norm_num [lowVolumeResult]
  · have hperm := List.mergeSort_perm [lowVolumeResult]
      (fun a b => decide (sortLe a b))
    rw [sort_results]
    exact hperm.mem_iff.mpr (by simp)

end WaterBlend
